import Mathlib

/-!
Verification of the build-plate detection core of the PrintPro3D
repository, as described in its specification: image preprocessing,
perceptual-hash fast path, SSIM comparison, adaptive thresholding,
region analysis, calibration resolution, and the fail-closed detection
orchestrator.

The algorithmic modules of the `cv_analysis` package
(`preprocessing.py`, `perceptual_hash.py`, `ssim_comparison.py`,
`region_analysis.py`, `adaptive_threshold.py`, `detection.py`) are not
present in the repository snapshot; only their documentation,
configuration (`cv_config.yaml` defaults), tests and callers are.
Every definition below whose doc comment starts with
"Modelled from the spec:" is therefore a shallow embedding built from
the specification text and the documented configuration defaults,
not from implementation code.

Pixels and scores are exact rationals; machine floating point is
abstracted by exact arithmetic.
-/

/-- Modelled from the spec: the `detectionMethod` alternatives of a
`DetectionResult` (spec section 3). -/
inductive DetectionMethod where
  | hashShortCircuit
  | ssimClean
  | ssimDirty
  | noReference
  | error
deriving Repr, DecidableEq

/-- Modelled from the spec: the stage-level error taxonomy of spec
section 7.  `ReferenceNotFoundError` is not here because the resolver
reports absence as a value (`Option`), which the orchestrator turns
into a `noReference` result rather than an error. -/
inductive StageError where
  | decode
  | configMismatch
  | numericInstability
  | unhandled
deriving Repr, DecidableEq

/-- Modelled from the spec: the pipeline stages of the orchestrator
state machine (spec section 4.7), used to record which stages a call
actually executed. -/
inductive Stage where
  | preproc
  | resolveRef
  | hashCheck
  | ssimCompare
  | regionAnalyze
deriving Repr, DecidableEq

/-- Modelled from the spec: the immutable `DetectionConfig` threaded
through every call (spec sections 6 and 9), with the tunables that the
repository documents in `cv_config.yaml`. -/
structure DetectionConfig where
  hashSize : ℕ
  matchThreshold : ℕ
  windowSize : ℕ
  zones : List (ℚ × ℚ)
  baseThreshold : ℚ
  fpRateAdjustment : ℚ
  fpHighWater : ℚ
  fpLowWater : ℚ
  minThreshold : ℚ
  maxThreshold : ℚ
  minAreaPixels : ℕ
  maxAspect : ℚ
  diffThreshold : ℚ
  tolerance : ℚ
deriving Repr, DecidableEq

/-- Modelled from the spec: the default configuration documented in
`cv_config.yaml`: a 16x16 (256-bit) hash with match threshold 5, SSIM
window 7, threshold zones (5.0, 0.95), (20.0, 0.92), (1000.0, 0.90)
over base 0.90, false-positive adjustment 0.02 clamped to
[0.85, 0.97], region filters 100 px / aspect 5.0, binarization
threshold 0.5, and calibration tolerance 2.5 mm.  The high/low water
marks for the feedback nudge are not given numerically by the spec;
0.10 and 0.02 are taken from the documented troubleshooting guidance
("false positive rate exceeds 10%"). -/
def defaultConfig : DetectionConfig where
  hashSize := 16
  matchThreshold := 5
  windowSize := 7
  zones := [(5, 19/20), (20, 23/25), (1000, 9/10)]
  baseThreshold := 9/10
  fpRateAdjustment := 1/50
  fpHighWater := 1/10
  fpLowWater := 1/50
  minThreshold := 17/20
  maxThreshold := 97/100
  minAreaPixels := 100
  maxAspect := 5
  diffThreshold := 1/2
  tolerance := 5/2

/-- Modelled from the spec: base-threshold selection from an ordered
list of `(zMaxBoundary, threshold)` zones (spec section 4.4); the
first zone whose boundary strictly exceeds the height wins, matching
the documented reading "Z < 5mm: 0.95, Z = 5-20mm: 0.92,
Z > 20mm: 0.90"; past the last zone the base threshold applies. -/
def zoneLookup : List (ℚ × ℚ) → ℚ → ℚ → ℚ
  | [], _, d => d
  | z :: rest, zHeight, d =>
      if zHeight < z.1 then z.2 else zoneLookup rest zHeight d

/-- Clamp a rational into the closed interval `[lo, hi]`. -/
def clampQ (lo hi x : ℚ) : ℚ := max lo (min hi x)

/-- Modelled from the spec: the optional false-positive feedback of
spec section 4.4 - the threshold is nudged down by the bounded step
when the recent false-positive rate exceeds the high-water mark, up
when it is very low, and left alone otherwise or when no rate is
supplied. -/
def fpAdjust (cfg : DetectionConfig) : Option ℚ → ℚ
  | none => 0
  | some r =>
      if cfg.fpHighWater < r then -cfg.fpRateAdjustment
      else if r < cfg.fpLowWater then cfg.fpRateAdjustment
      else 0

/-- Modelled from the spec: `getThreshold(zHeight,
recentFalsePositiveRate?)` of spec section 4.4 - zone base threshold
plus bounded feedback nudge, always clamped to
`[minThreshold, maxThreshold]`.  Pure function, no internal state. -/
def getThreshold (cfg : DetectionConfig) (zHeight : ℚ) (fpRate : Option ℚ) : ℚ :=
  clampQ cfg.minThreshold cfg.maxThreshold
    (zoneLookup cfg.zones zHeight cfg.baseThreshold + fpAdjust cfg fpRate)

/-- Modelled from the spec: a `CalibrationReference` entry - the
stored height together with the baseline image of the empty plate at
that height (spec sections 3 and 4.6). -/
structure CalEntry where
  zHeight : ℚ
  image : List (List ℚ)
deriving Repr, DecidableEq

/-- Pick, of two calibration entries, the one whose stored height is
closer to the requested height; on a tie the first argument wins, a
deterministic tie-break. -/
def better (z : ℚ) (a b : CalEntry) : CalEntry :=
  if |a.zHeight - z| ≤ |b.zHeight - z| then a else b

/-- Modelled from the spec: `resolve(printerId, zHeight, tolerance)`
of spec section 4.6 - the entry with minimal `|stored - requested|`
among the printer's entries within `tolerance`, `none` when no entry
is within tolerance.  The entry list is the calibration set already
scoped to the printer. -/
def resolve (entries : List CalEntry) (z tol : ℚ) : Option CalEntry :=
  match entries.filter (fun e => decide (|e.zHeight - z| ≤ tol)) with
  | [] => none
  | e :: es => some (es.foldl (better z) e)

/-- A raw image is a decodable grid when it has at least one row and
all rows share one positive width. -/
def validGrid : List (List ℚ) → Bool
  | [] => false
  | r :: rs => decide (r.length ≠ 0) && rs.all (fun row => decide (row.length = r.length))

/-- Clamp a pixel value into the canonical intensity range `[0, 1]`. -/
def clamp01 (x : ℚ) : ℚ := max 0 (min 1 x)

/-- Modelled from the spec: the deterministic normalization of
`preprocess` (spec section 4.1).  The geometric steps (grayscale,
CLAHE, background flattening, resize) are abstracted as the
intensity-range normalization alone; what the claims rely on is that
the map is a pure deterministic function of the pixel grid. -/
def prep (img : List (List ℚ)) : List (List ℚ) :=
  img.map (fun row => row.map clamp01)

/-- Modelled from the spec: `preprocess(raw, config)` of spec section
4.1 - unreadable or corrupt input (here: an empty or ragged pixel
grid) yields `DecodeError`; otherwise the deterministic canonical
form. -/
def preprocess (img : List (List ℚ)) : Except StageError (List (List ℚ)) :=
  if validGrid img then .ok (prep img) else .error .decode

/-- Pixel lookup with zero padding outside the grid. -/
def pixelAt (img : List (List ℚ)) (r c : ℕ) : ℚ :=
  (img.getD r []).getD c 0

/-- Mean of a list of rationals (zero for the empty list, by the
division-by-zero convention of `ℚ`). -/
def meanQ (l : List ℚ) : ℚ := l.sum / l.length

/-- Width of a pixel grid (length of its first row). -/
def gridWidth : List (List ℚ) → ℕ
  | [] => 0
  | r :: _ => r.length

/-- Modelled from the spec: the average intensity of cell `(i, j)` of
the `n` by `n` partition of the image (spec section 4.2). -/
def cellAvg (img : List (List ℚ)) (rows cols n i j : ℕ) : ℚ :=
  let r0 := i * rows / n
  let r1 := (i + 1) * rows / n
  let c0 := j * cols / n
  let c1 := (j + 1) * cols / n
  let vals := (List.range (r1 - r0)).flatMap
    (fun di => (List.range (c1 - c0)).map (fun dj => pixelAt img (r0 + di) (c0 + dj)))
  if vals.length = 0 then 0 else meanQ vals

/-- Modelled from the spec: `fingerprint(image)` of spec section 4.2 -
partition into an `n` by `n` grid of cell averages and encode the
signs of adjacent-cell gradients as bits (a difference hash). -/
def fingerprint (cfg : DetectionConfig) (img : List (List ℚ)) : List Bool :=
  let n := cfg.hashSize
  let rows := img.length
  let cols := gridWidth img
  (List.range n).flatMap (fun i => (List.range (n - 1)).map
    (fun j => decide (cellAvg img rows cols n i j < cellAvg img rows cols n i (j + 1))))

/-- Number of positions at which two bit vectors differ. -/
def diffCount (a b : List Bool) : ℕ :=
  ((a.zip b).filter (fun p => p.1 != p.2)).length

/-- Modelled from the spec: `distance(a, b)` of spec section 4.2 -
Hamming distance, raising `ConfigMismatchError` when the fingerprints
were built with different parameters (observable as a length
mismatch). -/
def hammingDistance (a b : List Bool) : Except StageError ℕ :=
  if a.length = b.length then .ok (diffCount a b) else .error .configMismatch

/-- Stabilizing constant `C1 = (0.01)^2` of the SSIM formula for the
unit intensity range. -/
def ssimC1 : ℚ := 1/10000

/-- Stabilizing constant `C2 = (0.03)^2` of the SSIM formula for the
unit intensity range. -/
def ssimC2 : ℚ := 9/10000

/-- Modelled from the spec: the per-window SSIM value of spec section
4.3 - local means, variances and covariance combined with the small
stabilizing constants that prevent degenerate quotients on
near-uniform windows. -/
def winScore (xs ys : List ℚ) : ℚ :=
  ((2 * meanQ xs * meanQ ys + ssimC1) *
      (2 * meanQ ((xs.zip ys).map (fun p => (p.1 - meanQ xs) * (p.2 - meanQ ys))) + ssimC2)) /
    ((meanQ xs * meanQ xs + meanQ ys * meanQ ys + ssimC1) *
      (meanQ (xs.map (fun a => (a - meanQ xs) * (a - meanQ xs))) +
        meanQ (ys.map (fun a => (a - meanQ ys) * (a - meanQ ys))) + ssimC2))

/-- The `w` by `w` window of the image whose top-left corner is
`(i, j)`, flattened row major. -/
def windowAt (img : List (List ℚ)) (w i j : ℕ) : List ℚ :=
  (List.range w).flatMap
    (fun di => (List.range w).map (fun dj => pixelAt img (i + di) (j + dj)))

/-- Top-left corners of all full `w` by `w` windows inside a
`rows` by `cols` grid (edge policy: windows that would overrun the
border are skipped). -/
def winPositions (rows cols w : ℕ) : List (ℕ × ℕ) :=
  (List.range (rows + 1 - w)).flatMap
    (fun i => (List.range (cols + 1 - w)).map (fun j => (i, j)))

/-- Modelled from the spec: the window sweep of `compare` (spec
section 4.3) - every full window position paired with its local SSIM
score. -/
def ssimWindows (w : ℕ) (cur reference : List (List ℚ)) : List ((ℕ × ℕ) × ℚ) :=
  (winPositions cur.length (gridWidth cur) w).map
    (fun p => (p, winScore (windowAt cur w p.1 p.2) (windowAt reference w p.1 p.2)))

/-- Modelled from the spec: the aggregate SSIM score - the plain mean
of the per-window scores (the documented open choice, fixed here), 1
by convention for an image too small to hold a single window. -/
def ssimScoreOf (w : ℕ) (cur reference : List (List ℚ)) : ℚ :=
  if (ssimWindows w cur reference).length = 0 then 1
  else meanQ ((ssimWindows w cur reference).map (fun q => q.2))

/-- Modelled from the spec: `compare(current, reference, windowSize)`
of spec section 4.3 - the overall score in `[0, 1]` together with the
per-window difference map `1 - local similarity`. -/
def compareSSIM (w : ℕ) (cur reference : List (List ℚ)) : ℚ × List ((ℕ × ℕ) × ℚ) :=
  (ssimScoreOf w cur reference,
   (ssimWindows w cur reference).map (fun q => (q.1, 1 - q.2)))

/-- Modelled from the spec: a `CandidateRegion` (spec section 3) -
bounding box as `(minRow, minCol, height, width)`, pixel area,
centroid, and aspect ratio of the bounding box. -/
structure CandidateRegion where
  boundingBox : ℕ × ℕ × ℕ × ℕ
  areaPixels : ℕ
  centroid : ℚ × ℚ
  aspect : ℚ
deriving Repr, DecidableEq

/-- Grid cells kept by binarizing a difference map at the given
threshold. -/
def binarize (thresh : ℚ) (dm : List ((ℕ × ℕ) × ℚ)) : List (ℕ × ℕ) :=
  (dm.filter (fun pc => decide (thresh ≤ pc.2))).map (fun pc => pc.1)

/-- Four-neighbour adjacency of grid cells. -/
def adjacentB (a b : ℕ × ℕ) : Bool :=
  (a.1 == b.1 && (a.2 == b.2 + 1 || b.2 == a.2 + 1)) ||
    (a.2 == b.2 && (a.1 == b.1 + 1 || b.1 == a.1 + 1))

/-- One fuelled breadth-first sweep: grow the component reachable from
the frontier inside `rest`, returning the component cells and the
untouched remainder.  The fuel only bounds recursion depth; callers
provide enough for the sweep to complete. -/
def growComp : ℕ → List (ℕ × ℕ) → List (ℕ × ℕ) → List (ℕ × ℕ) × List (ℕ × ℕ)
  | 0, frontier, rest => (frontier, rest)
  | _ + 1, [], rest => ([], rest)
  | fuel + 1, c :: fs, rest =>
      let parts := rest.partition (fun x => adjacentB c x)
      let out := growComp fuel (fs ++ parts.1) parts.2
      (c :: out.1, out.2)

/-- Fuelled connected-component extraction over a cell list. -/
def componentsOf : ℕ → List (ℕ × ℕ) → List (List (ℕ × ℕ))
  | 0, _ => []
  | _ + 1, [] => []
  | fuel + 1, c :: rest =>
      let out := growComp (1 + 2 * (c :: rest).length) [c] rest
      out.1 :: componentsOf fuel out.2

/-- Connected components of a binarized difference map under
four-neighbour adjacency. -/
def componentsFrom (cells : List (ℕ × ℕ)) : List (List (ℕ × ℕ)) :=
  componentsOf cells.length cells

/-- Modelled from the spec: build a `CandidateRegion` from the cells
of one connected component - bounding box, area, centroid and aspect
ratio (spec section 4.5). -/
def mkRegion (cells : List (ℕ × ℕ)) : CandidateRegion :=
  match cells with
  | [] => ⟨(0, 0, 0, 0), 0, (0, 0), 0⟩
  | c :: cs =>
      let rmin := cs.foldl (fun a x => min a x.1) c.1
      let rmax := cs.foldl (fun a x => max a x.1) c.1
      let cmin := cs.foldl (fun a x => min a x.2) c.2
      let cmax := cs.foldl (fun a x => max a x.2) c.2
      let ht := rmax - rmin + 1
      let wd := cmax - cmin + 1
      { boundingBox := (rmin, cmin, ht, wd)
        areaPixels := cells.length
        centroid := (meanQ (cells.map (fun x => (x.1 : ℚ))),
                     meanQ (cells.map (fun x => (x.2 : ℚ))))
        aspect := (max ht wd : ℚ) / (min ht wd : ℚ) }

/-- Descending-area order on regions with a deterministic tie-break on
the bounding-box corner. -/
def regionLE (a b : CandidateRegion) : Bool :=
  (b.areaPixels < a.areaPixels) ||
    (a.areaPixels == b.areaPixels &&
      (a.boundingBox.1 < b.boundingBox.1 ||
        (a.boundingBox.1 == b.boundingBox.1 && a.boundingBox.2.1 ≤ b.boundingBox.2.1)))

/-- Insert into a list sorted by the boolean order `le`. -/
def insertSorted (le : CandidateRegion → CandidateRegion → Bool)
    (x : CandidateRegion) : List CandidateRegion → List CandidateRegion
  | [] => [x]
  | y :: ys => if le x y then x :: y :: ys else y :: insertSorted le x ys

/-- Insertion sort by the boolean order `le`. -/
def sortRegions (le : CandidateRegion → CandidateRegion → Bool) :
    List CandidateRegion → List CandidateRegion
  | [] => []
  | x :: xs => insertSorted le x (sortRegions le xs)

/-- Modelled from the spec: `analyze(differenceMap, minAreaPixels,
maxAspectRatio)` of spec section 4.5 - binarize the map, extract
connected components, discard components below the minimum area or
above the maximum aspect ratio, and order the survivors by descending
area with a deterministic tie-break. -/
def analyze (minArea : ℕ) (maxAspect diffThresh : ℚ)
    (dm : List ((ℕ × ℕ) × ℚ)) : List CandidateRegion :=
  let regs := (componentsFrom (binarize diffThresh dm)).map mkRegion
  sortRegions regionLE
    (regs.filter (fun r => decide (minArea ≤ r.areaPixels) && decide (r.aspect ≤ maxAspect)))

/-- Modelled from the spec: the `DetectionResult` record of spec
section 3.  Wall-clock `processingTimeMs` is not representable in a
pure embedding and is omitted; no claim depends on it. -/
structure DetectionResult where
  isClean : Bool
  detectionMethod : DetectionMethod
  ssimScore : ℚ
  thresholdUsed : ℚ
  hashDistance : ℕ
  regionsDetected : List CandidateRegion
  confidence : ℚ
  referenceZHeightUsed : Option ℚ
deriving Repr, DecidableEq

/-- Modelled from the spec: the fail-closed terminal result for any
stage error - not clean, method `error`, confidence 0 (spec sections
4.7 and 7). -/
def errorResult : DetectionResult :=
  ⟨false, .error, 0, 0, 0, [], 0, none⟩

/-- Modelled from the spec: the terminal result when no calibration
reference is within tolerance - absence of a baseline is never treated
as clean (spec section 4.7). -/
def noReferenceResult : DetectionResult :=
  ⟨false, .noReference, 0, 0, 0, [], 0, none⟩

/-- Modelled from the spec: the clean fast-path result when the hash
distance is within the match threshold (spec section 4.7). -/
def hashResult (thr : ℚ) (d : ℕ) (refZ : ℚ) : DetectionResult :=
  ⟨true, .hashShortCircuit, 1, thr, d, [], 1, some refZ⟩

/-- Modelled from the spec: the clean result when the SSIM score
reaches the adaptive threshold (spec section 4.7). -/
def ssimCleanResult (score thr : ℚ) (d : ℕ) (refZ : ℚ) : DetectionResult :=
  ⟨true, .ssimClean, score, thr, d, [], score, some refZ⟩

/-- Modelled from the spec: the dirty result when the SSIM score falls
below the adaptive threshold; region analysis only enumerates
evidence (spec section 4.7). -/
def ssimDirtyResult (score thr : ℚ) (d : ℕ) (regions : List CandidateRegion)
    (refZ : ℚ) : DetectionResult :=
  ⟨false, .ssimDirty, score, thr, d, regions, 1 - score, some refZ⟩

/-- Modelled from the spec: the orchestrator state machine of spec
section 4.7, instrumented with the list of stages the call executed.
Stage errors are propagated in the `Except` layer; `detect` below maps
them to the fail-closed error result. -/
def runDetect (cfg : DetectionConfig) (entries : List CalEntry)
    (current : List (List ℚ)) (z : ℚ) (fpRate : Option ℚ) :
    Except StageError DetectionResult × List Stage :=
  match preprocess current with
  | .error e => (.error e, [Stage.preproc])
  | .ok cur =>
    match resolve entries z cfg.tolerance with
    | none => (.ok noReferenceResult, [Stage.preproc, Stage.resolveRef])
    | some entry =>
      match preprocess entry.image with
      | .error e => (.error e, [Stage.preproc, Stage.resolveRef])
      | .ok refImg =>
        match hammingDistance (fingerprint cfg cur) (fingerprint cfg refImg) with
        | .error e => (.error e, [Stage.preproc, Stage.resolveRef, Stage.hashCheck])
        | .ok d =>
          if d ≤ cfg.matchThreshold then
            (.ok (hashResult (getThreshold cfg z fpRate) d entry.zHeight),
             [Stage.preproc, Stage.resolveRef, Stage.hashCheck])
          else
            let sd := compareSSIM cfg.windowSize cur refImg
            let thr := getThreshold cfg z fpRate
            if thr ≤ sd.1 then
              (.ok (ssimCleanResult sd.1 thr d entry.zHeight),
               [Stage.preproc, Stage.resolveRef, Stage.hashCheck, Stage.ssimCompare])
            else
              (.ok (ssimDirtyResult sd.1 thr d
                 (analyze cfg.minAreaPixels cfg.maxAspect cfg.diffThreshold sd.2)
                 entry.zHeight),
               [Stage.preproc, Stage.resolveRef, Stage.hashCheck, Stage.ssimCompare,
                Stage.regionAnalyze])

/-- Modelled from the spec: `detect(currentImage, printerId, zHeight,
config) -> DetectionResult` (spec section 6).  Total by construction -
every stage failure is caught and becomes the fail-closed error
result, so the caller always receives a `DetectionResult`. -/
def detect (cfg : DetectionConfig) (entries : List CalEntry)
    (current : List (List ℚ)) (z : ℚ) (fpRate : Option ℚ) : DetectionResult :=
  match (runDetect cfg entries current z fpRate).1 with
  | .ok r => r
  | .error _ => errorResult

/-- C4: for every zHeight (including negative and arbitrarily large
values) and every recent false-positive rate (in particular all rates
in [0,1], supplied or not), `getThreshold` under the default
configuration returns a value in [minThreshold, maxThreshold] =
[0.85, 0.97]. -/
theorem getThreshold_bounds (z : ℚ) (fp : Option ℚ) :
    17/20 ≤ getThreshold defaultConfig z fp ∧ getThreshold defaultConfig z fp ≤ 97/100 := by
  simp only [getThreshold, clampQ, defaultConfig]
  exact ⟨le_max_left _ _, max_le (by norm_num) (min_le_left _ _)⟩

/-- C6: at any fixed false-positive rate, `getThreshold` under the
default configuration is monotonically non-increasing in zHeight, and
the same SSIM score 0.93 falls below the threshold at zHeight 2
(threshold 0.95, judged dirty) but reaches the threshold at zHeight
100 (threshold 0.90, judged clean). -/
theorem getThreshold_zone_monotone :
    (∀ (fp : Option ℚ) (z1 z2 : ℚ), z1 ≤ z2 →
        getThreshold defaultConfig z2 fp ≤ getThreshold defaultConfig z1 fp) ∧
    ¬ (getThreshold defaultConfig 2 none ≤ 93/100) ∧
    getThreshold defaultConfig 100 none ≤ 93/100 := by
  refine ⟨?_, ?_, ?_⟩
  · intro fp z1 z2 h
    unfold getThreshold clampQ
    apply max_le_max le_rfl
    apply min_le_min le_rfl
    apply add_le_add_right
    simp only [defaultConfig, zoneLookup]
    split_ifs <;> linarith
  · norm_num [getThreshold, clampQ, fpAdjust, defaultConfig, zoneLookup, max_def, min_def]
  · norm_num [getThreshold, clampQ, fpAdjust, defaultConfig, zoneLookup, max_def, min_def]

/-- Witness for C6: the monotonicity part applied at the concrete
heights 0 and 1. -/
theorem getThreshold_zone_monotone_w :
    (0 : ℚ) ≤ 1 ∧ getThreshold defaultConfig 1 none ≤ getThreshold defaultConfig 0 none :=
  ⟨by norm_num, getThreshold_zone_monotone.1 none 0 1 (by norm_num)⟩

/-- C10: for every zHeight and every supplied 24-hour false-positive
rate, the threshold returned under the default configuration differs
from the selected zone's base threshold by at most the configured
fp-rate adjustment 0.02. -/
theorem getThreshold_fp_step_bounded (z r : ℚ) :
    |getThreshold defaultConfig z (some r) -
        zoneLookup defaultConfig.zones z defaultConfig.baseThreshold| ≤ 1/50 := by
  simp only [getThreshold, clampQ, fpAdjust, defaultConfig, zoneLookup]
  split_ifs <;> rw [abs_sub_le_iff] <;> constructor <;> norm_num [max_def, min_def]

section RatEval

attribute [local semireducible] Rat.add Rat.mul Rat.sub Rat.inv

/-- Either argument can be the outcome of `better`. -/
theorem betterCases (z : ℚ) (a b : CalEntry) : better z a b = a ∨ better z a b = b := by
  unfold better
  split_ifs <;> simp

/-- `better` is at least as close as its left argument. -/
theorem better_abs_le_left (z : ℚ) (a b : CalEntry) :
    |(better z a b).zHeight - z| ≤ |a.zHeight - z| := by
  unfold better
  split_ifs with h
  · exact le_rfl
  · exact (not_le.mp h).le

/-- `better` is at least as close as its right argument. -/
theorem better_abs_le_right (z : ℚ) (a b : CalEntry) :
    |(better z a b).zHeight - z| ≤ |b.zHeight - z| := by
  unfold better
  split_ifs with h
  · exact h
  · exact le_rfl

/-- Folding `better` over a candidate list stays inside the list. -/
theorem foldl_better_mem (z : ℚ) (es : List CalEntry) :
    ∀ a : CalEntry, es.foldl (better z) a ∈ a :: es := by
  induction es with
  | nil => intro a; simp
  | cons b bs ih =>
      intro a
      have h := ih (better z a b)
      simp only [List.foldl_cons]
      rcases List.mem_cons.mp h with he | hm
      · rw [he]
        rcases betterCases z a b with hc | hc <;> rw [hc] <;> simp
      · exact List.mem_cons_of_mem _ (List.mem_cons_of_mem _ hm)

/-- Folding `better` over a candidate list minimizes the distance to
the requested height over the seed and the list. -/
theorem foldl_better_min (z : ℚ) (es : List CalEntry) :
    ∀ a x : CalEntry, x ∈ a :: es →
      |(es.foldl (better z) a).zHeight - z| ≤ |x.zHeight - z| := by
  induction es with
  | nil =>
      intro a x hx
      rcases List.mem_cons.mp hx with h | h
      · rw [h]
        exact le_rfl
      · simp at h
  | cons b bs ih =>
      intro a x hx
      simp only [List.foldl_cons]
      rcases List.mem_cons.mp hx with h | h
      · rw [h]
        exact le_trans (ih (better z a b) (better z a b) (List.mem_cons_self _ _))
          (better_abs_le_left z a b)
      · rcases List.mem_cons.mp h with h2 | h2
        · rw [h2]
          exact le_trans (ih (better z a b) (better z a b) (List.mem_cons_self _ _))
            (better_abs_le_right z a b)
        · exact ih (better z a b) x (List.mem_cons_of_mem _ h2)

/-- The calibration grid of scenario D: heights 0, 5, 10, ..., 235 mm
in 5 mm steps (47 entries plus height 0, as documented for the
calibration capture loop). -/
def calibrationGrid : List CalEntry :=
  (List.range 48).map (fun k => ⟨5 * (k : ℚ), [[0]]⟩)

/-- C5: a resolved reference is an entry within tolerance minimizing
the distance to the requested height; `none` means no entry is within
tolerance; and on the 5 mm grid with tolerance 2.5 a request for
Z = 137.9 resolves to the Z = 140 entry. -/
theorem resolve_nearest :
    (∀ (entries : List CalEntry) (z tol : ℚ) (e : CalEntry),
        resolve entries z tol = some e →
          e ∈ entries ∧ |e.zHeight - z| ≤ tol ∧
            ∀ x ∈ entries, |x.zHeight - z| ≤ tol → |e.zHeight - z| ≤ |x.zHeight - z|) ∧
    (∀ (entries : List CalEntry) (z tol : ℚ),
        resolve entries z tol = none → ∀ x ∈ entries, ¬ |x.zHeight - z| ≤ tol) ∧
    (resolve calibrationGrid (1379/10) (5/2)).map CalEntry.zHeight = some 140 := by
  refine ⟨?_, ?_, by decide⟩
  · intro entries z tol e he
    unfold resolve at he
    split at he
    · cases he
    · rename_i a as hw
      injection he with he2
      have hmem : e ∈ a :: as := by rw [← he2]; exact foldl_better_mem z as a
      have hmemf : e ∈ entries.filter (fun x => decide (|x.zHeight - z| ≤ tol)) := by
        rw [hw]; exact hmem
      have hef := List.mem_filter.mp hmemf
      refine ⟨hef.1, of_decide_eq_true hef.2, ?_⟩
      intro x hx hxtol
      have hxf : x ∈ entries.filter (fun y => decide (|y.zHeight - z| ≤ tol)) :=
        List.mem_filter.mpr ⟨hx, decide_eq_true hxtol⟩
      rw [hw] at hxf
      rw [← he2]
      exact foldl_better_min z as a x hxf
  · intro entries z tol hn x hx hxtol
    unfold resolve at hn
    split at hn
    · rename_i hw
      have hxf : x ∈ entries.filter (fun y => decide (|y.zHeight - z| ≤ tol)) :=
        List.mem_filter.mpr ⟨hx, decide_eq_true hxtol⟩
      rw [hw] at hxf
      simp at hxf
    · cases hn

/-- Witness for C5: the minimality part applied to the concrete grid
request Z = 137.9, tolerance 2.5, resolving to the Z = 140 entry. -/
theorem resolve_nearest_w :
    (⟨140, [[0]]⟩ : CalEntry) ∈ calibrationGrid ∧
      |(⟨140, [[0]]⟩ : CalEntry).zHeight - 1379/10| ≤ 5/2 :=
  ⟨(resolve_nearest.1 calibrationGrid (1379/10) (5/2) ⟨140, [[0]]⟩ (by decide)).1,
   (resolve_nearest.1 calibrationGrid (1379/10) (5/2) ⟨140, [[0]]⟩ (by decide)).2.1⟩

end RatEval

section RatEval2

attribute [local semireducible] Rat.add Rat.mul Rat.sub Rat.inv

/-- Inserting into a sorted list adds no new elements. -/
theorem mem_insertSorted (le : CandidateRegion → CandidateRegion → Bool)
    (x a : CandidateRegion) : ∀ l : List CandidateRegion,
    a ∈ insertSorted le x l → a = x ∨ a ∈ l := by
  intro l
  induction l with
  | nil =>
      intro h
      simp [insertSorted] at h
      exact Or.inl h
  | cons y ys ih =>
      simp only [insertSorted]
      intro h
      split at h
      · rcases List.mem_cons.mp h with h1 | h1
        · exact Or.inl h1
        · exact Or.inr h1
      · rcases List.mem_cons.mp h with h1 | h1
        · exact Or.inr (by rw [h1]; exact List.mem_cons_self _ _)
        · rcases ih h1 with h2 | h2
          · exact Or.inl h2
          · exact Or.inr (List.mem_cons_of_mem _ h2)

/-- Sorting preserves membership (right to left). -/
theorem mem_sortRegions (le : CandidateRegion → CandidateRegion → Bool)
    (a : CandidateRegion) : ∀ l : List CandidateRegion,
    a ∈ sortRegions le l → a ∈ l := by
  intro l
  induction l with
  | nil => intro h; simp [sortRegions] at h
  | cons x xs ih =>
      intro h
      rcases mem_insertSorted le x a (sortRegions le xs) h with h1 | h1
      · rw [h1]; exact List.mem_cons_self _ _
      · exact List.mem_cons_of_mem _ (ih h1)

/-- Every region surviving `analyze` satisfies both filters. -/
theorem analyzeMemAux (minArea : ℕ) (maxA dt : ℚ) (dm : List ((ℕ × ℕ) × ℚ))
    (r : CandidateRegion) (h : r ∈ analyze minArea maxA dt dm) :
    minArea ≤ r.areaPixels ∧ r.aspect ≤ maxA := by
  unfold analyze at h
  have h2 := mem_sortRegions regionLE r _ h
  have h3 := List.mem_filter.mp h2
  have h4 := h3.2
  simp only [Bool.and_eq_true, decide_eq_true_eq] at h4
  exact h4

/-- C8: every candidate region returned by `analyze` has area at least
`minAreaPixels` and aspect ratio at most `maxAspectRatio`, and hence
so does every region in `DetectionResult.regionsDetected` on any
`detect` call. -/
theorem analyze_region_filters :
    (∀ (minArea : ℕ) (maxA dt : ℚ) (dm : List ((ℕ × ℕ) × ℚ)) (r : CandidateRegion),
        r ∈ analyze minArea maxA dt dm → minArea ≤ r.areaPixels ∧ r.aspect ≤ maxA) ∧
    (∀ (cfg : DetectionConfig) (entries : List CalEntry) (cur : List (List ℚ))
        (z : ℚ) (fp : Option ℚ) (r : CandidateRegion),
        r ∈ (detect cfg entries cur z fp).regionsDetected →
          cfg.minAreaPixels ≤ r.areaPixels ∧ r.aspect ≤ cfg.maxAspect) := by
  refine ⟨analyzeMemAux, ?_⟩
  intro cfg entries cur z fp r h
  unfold detect runDetect at h
  cases hp : preprocess cur with
  | error e => simp [hp, errorResult] at h
  | ok cpre =>
    simp only [hp] at h
    cases hr : resolve entries z cfg.tolerance with
    | none => simp [hr, noReferenceResult] at h
    | some entry =>
      simp only [hr] at h
      cases hp2 : preprocess entry.image with
      | error e => simp [hp2, errorResult] at h
      | ok rpre =>
        simp only [hp2] at h
        cases hh : hammingDistance (fingerprint cfg cpre) (fingerprint cfg rpre) with
        | error e => simp [hh, errorResult] at h
        | ok d =>
          simp only [hh] at h
          by_cases hd : d ≤ cfg.matchThreshold
          · simp [hd, hashResult] at h
          · rw [if_neg hd] at h
            by_cases hs : getThreshold cfg z fp ≤ (compareSSIM cfg.windowSize cpre rpre).1
            · simp [hs, ssimCleanResult] at h
            · rw [if_neg hs] at h
              simp only [ssimDirtyResult] at h
              exact analyzeMemAux _ _ _ _ r h

/-- Witness for C8: the filter part applied to a concrete two-cell
difference map whose single surviving region has area 2 and aspect
ratio 2. -/
theorem analyze_region_filters_w :
    1 ≤ (⟨(0, 0, 1, 2), 2, (0, 1/2), 2⟩ : CandidateRegion).areaPixels ∧
      (⟨(0, 0, 1, 2), 2, (0, 1/2), 2⟩ : CandidateRegion).aspect ≤ 5 :=
  analyze_region_filters.1 1 5 (1/2) [((0, 0), 1), ((0, 1), 1)]
    ⟨(0, 0, 1, 2), 2, (0, 1/2), 2⟩ (by decide)

end RatEval2

section RatEval3

attribute [local semireducible] Rat.add Rat.mul Rat.sub Rat.inv

/-- Two bit vectors that are the same list differ in no position. -/
theorem diffCount_self (a : List Bool) : diffCount a a = 0 := by
  induction a with
  | nil => rfl
  | cons x xs ih =>
      unfold diffCount at ih ⊢
      simp only [List.zip_cons_cons, List.filter_cons, bne_self_eq_false]
      exact ih

/-- Hamming distance of a fingerprint against itself is zero and never
a config mismatch. -/
theorem hamming_self (cfg : DetectionConfig) (img : List (List ℚ)) :
    hammingDistance (fingerprint cfg img) (fingerprint cfg img) = Except.ok 0 := by
  unfold hammingDistance
  rw [if_pos rfl, diffCount_self]

/-- Length of a flat map whose pieces all have the same length. -/
theorem length_flatMap_const (l : List ℕ) (f : ℕ → List Bool) (k : ℕ)
    (h : ∀ a, (f a).length = k) : (l.flatMap f).length = l.length * k := by
  induction l with
  | nil => simp
  | cons x t ih =>
      rw [List.flatMap_cons, List.length_append, h, ih, List.length_cons]
      ring

/-- A fingerprint always has hashSize * (hashSize - 1) bits. -/
theorem fingerprint_length (cfg : DetectionConfig) (img : List (List ℚ)) :
    (fingerprint cfg img).length = cfg.hashSize * (cfg.hashSize - 1) := by
  unfold fingerprint
  rw [length_flatMap_const _ _ (cfg.hashSize - 1) ?_]
  · rw [List.length_range]
  · intro i
    rw [List.length_map, List.length_range]

/-- Fingerprints built with the same configuration have the same
length, so comparing them is never a config mismatch. -/
theorem fingerprint_length_eq (cfg : DetectionConfig) (a b : List (List ℚ)) :
    (fingerprint cfg a).length = (fingerprint cfg b).length := by
  rw [fingerprint_length, fingerprint_length]

/-- A list of ones sums to its length. -/
theorem sum_ones (l : List ℚ) (h : ∀ x ∈ l, x = 1) : l.sum = l.length := by
  induction l with
  | nil => simp
  | cons x t ih =>
      rw [List.sum_cons, h x (List.mem_cons_self _ _),
        ih (fun y hy => h y (List.mem_cons_of_mem _ hy)), List.length_cons]
      push_cast
      ring

/-- The mean of a nonempty list of ones is one. -/
theorem meanQ_ones (l : List ℚ) (h : ∀ x ∈ l, x = 1) (hne : l.length ≠ 0) :
    meanQ l = 1 := by
  unfold meanQ
  rw [sum_ones l h]
  exact div_self (Nat.cast_ne_zero.mpr hne)

/-- The mean of squared deviations is nonnegative. -/
theorem meanQ_sq_nonneg (xs : List ℚ) (m : ℚ) :
    0 ≤ meanQ (xs.map (fun a => (a - m) * (a - m))) := by
  unfold meanQ
  apply div_nonneg
  · apply List.sum_nonneg
    intro x hx
    rcases List.mem_map.mp hx with ⟨a, _, rfl⟩
    exact mul_self_nonneg _
  · exact Nat.cast_nonneg _

/-- Zipping a list with itself and taking deviation products is the
same as squared deviations. -/
theorem zip_self_map (m : ℚ) (xs : List ℚ) :
    (xs.zip xs).map (fun p => (p.1 - m) * (p.2 - m)) =
      xs.map (fun a => (a - m) * (a - m)) := by
  induction xs with
  | nil => rfl
  | cons x t ih =>
      simp only [List.zip_cons_cons, List.map_cons]
      rw [ih]

theorem ssimC1_pos : 0 < ssimC1 := by norm_num [ssimC1]

theorem ssimC2_pos : 0 < ssimC2 := by norm_num [ssimC2]

/-- A window compared against itself has SSIM exactly one: the
stabilizing constants keep the denominator positive. -/
theorem winScore_self (xs : List ℚ) : winScore xs xs = 1 := by
  unfold winScore
  rw [zip_self_map (meanQ xs) xs]
  have hv := meanQ_sq_nonneg xs (meanQ xs)
  have h1 : 0 < 2 * meanQ xs * meanQ xs + ssimC1 := by
    nlinarith [mul_self_nonneg (meanQ xs), ssimC1_pos]
  have h2 : 0 < 2 * meanQ (xs.map (fun a => (a - meanQ xs) * (a - meanQ xs))) + ssimC2 := by
    nlinarith [ssimC2_pos]
  have hEq : (meanQ xs * meanQ xs + meanQ xs * meanQ xs + ssimC1) *
      (meanQ (xs.map (fun a => (a - meanQ xs) * (a - meanQ xs))) +
        meanQ (xs.map (fun a => (a - meanQ xs) * (a - meanQ xs))) + ssimC2) =
      (2 * meanQ xs * meanQ xs + ssimC1) *
        (2 * meanQ (xs.map (fun a => (a - meanQ xs) * (a - meanQ xs))) + ssimC2) := by
    ring
  rw [hEq]
  exact div_self (ne_of_gt (mul_pos h1 h2))

/-- An image compared against itself scores SSIM exactly one. -/
theorem compareSSIM_self (w : ℕ) (img : List (List ℚ)) :
    (compareSSIM w img img).1 = 1 := by
  show ssimScoreOf w img img = 1
  unfold ssimScoreOf
  by_cases hl : (ssimWindows w img img).length = 0
  · rw [if_pos hl]
  · rw [if_neg hl]
    apply meanQ_ones
    · intro x hx
      rcases List.mem_map.mp hx with ⟨q, hq, rfl⟩
      unfold ssimWindows at hq
      rcases List.mem_map.mp hq with ⟨p, _, rfl⟩
      exact winScore_self _
    · rw [List.length_map]
      exact hl

/-- C1: `detect` is total by construction, and whenever any internal
stage signals an error the returned result is the fail-closed error
result: not clean, method `error`, confidence zero. -/
theorem detect_fail_closed (cfg : DetectionConfig) (entries : List CalEntry)
    (cur : List (List ℚ)) (z : ℚ) (fp : Option ℚ) (e : StageError)
    (h : (runDetect cfg entries cur z fp).1 = Except.error e) :
    detect cfg entries cur z fp = errorResult ∧
    (detect cfg entries cur z fp).isClean = false ∧
    (detect cfg entries cur z fp).detectionMethod = DetectionMethod.error ∧
    (detect cfg entries cur z fp).confidence = 0 := by
  have hd : detect cfg entries cur z fp = errorResult := by
    unfold detect
    rw [h]
  exact ⟨hd, by rw [hd]; rfl, by rw [hd]; rfl, by rw [hd]; rfl⟩

/-- Witness for C1: a corrupt (empty) image makes the preprocess stage
fail and `detect` returns the fail-closed error result. -/
theorem detect_fail_closed_w :
    detect defaultConfig [] [] 0 none = errorResult ∧
    (detect defaultConfig [] [] 0 none).isClean = false ∧
    (detect defaultConfig [] [] 0 none).detectionMethod = DetectionMethod.error ∧
    (detect defaultConfig [] [] 0 none).confidence = 0 :=
  detect_fail_closed defaultConfig [] [] 0 none StageError.decode (by rfl)

/-- C2: when the resolver finds no reference within tolerance, the
result is `noReference` and not clean, and neither the hash stage nor
the SSIM stage runs on that call. -/
theorem detect_no_reference (cfg : DetectionConfig) (entries : List CalEntry)
    (cur : List (List ℚ)) (z : ℚ) (fp : Option ℚ)
    (h1 : validGrid cur = true)
    (h2 : resolve entries z cfg.tolerance = none) :
    detect cfg entries cur z fp = noReferenceResult ∧
    (detect cfg entries cur z fp).isClean = false ∧
    (detect cfg entries cur z fp).detectionMethod = DetectionMethod.noReference ∧
    Stage.hashCheck ∉ (runDetect cfg entries cur z fp).2 ∧
    Stage.ssimCompare ∉ (runDetect cfg entries cur z fp).2 := by
  have hp1 : preprocess cur = Except.ok (prep cur) := by simp [preprocess, h1]
  have hr : runDetect cfg entries cur z fp =
      (Except.ok noReferenceResult, [Stage.preproc, Stage.resolveRef]) := by
    unfold runDetect
    simp only [hp1, h2]
  have hd : detect cfg entries cur z fp = noReferenceResult := by
    unfold detect
    rw [hr]
  refine ⟨hd, by rw [hd]; rfl, by rw [hd]; rfl, ?_, ?_⟩
  · rw [hr]
    simp
  · rw [hr]
    simp

/-- Witness for C2: an empty calibration set with a valid image. -/
theorem detect_no_reference_w :
    detect defaultConfig [] [[0]] 0 none = noReferenceResult ∧
    (detect defaultConfig [] [[0]] 0 none).isClean = false ∧
    (detect defaultConfig [] [[0]] 0 none).detectionMethod = DetectionMethod.noReference ∧
    Stage.hashCheck ∉ (runDetect defaultConfig [] [[0]] 0 none).2 ∧
    Stage.ssimCompare ∉ (runDetect defaultConfig [] [[0]] 0 none).2 :=
  detect_no_reference defaultConfig [] [[0]] 0 none (by decide) (by rfl)

/-- C3: when a reference is resolved and the fingerprints of the
preprocessed current and reference images are within the match
threshold, `detect` is clean via `hashShortCircuit` and the SSIM and
region stages never run on that call. -/
theorem detect_hash_fast_path (cfg : DetectionConfig) (entries : List CalEntry)
    (cur : List (List ℚ)) (z : ℚ) (fp : Option ℚ) (e : CalEntry)
    (h1 : validGrid cur = true)
    (h2 : resolve entries z cfg.tolerance = some e)
    (h3 : validGrid e.image = true)
    (hle : diffCount (fingerprint cfg (prep cur)) (fingerprint cfg (prep e.image)) ≤
      cfg.matchThreshold) :
    (detect cfg entries cur z fp).isClean = true ∧
    (detect cfg entries cur z fp).detectionMethod = DetectionMethod.hashShortCircuit ∧
    Stage.ssimCompare ∉ (runDetect cfg entries cur z fp).2 ∧
    Stage.regionAnalyze ∉ (runDetect cfg entries cur z fp).2 := by
  have hp1 : preprocess cur = Except.ok (prep cur) := by simp [preprocess, h1]
  have hp2 : preprocess e.image = Except.ok (prep e.image) := by simp [preprocess, h3]
  have hh : hammingDistance (fingerprint cfg (prep cur)) (fingerprint cfg (prep e.image)) =
      Except.ok (diffCount (fingerprint cfg (prep cur)) (fingerprint cfg (prep e.image))) := by
    unfold hammingDistance
    rw [if_pos (fingerprint_length_eq cfg _ _)]
  have hr : runDetect cfg entries cur z fp =
      (Except.ok (hashResult (getThreshold cfg z fp)
        (diffCount (fingerprint cfg (prep cur)) (fingerprint cfg (prep e.image))) e.zHeight),
       [Stage.preproc, Stage.resolveRef, Stage.hashCheck]) := by
    unfold runDetect
    simp only [hp1, h2, hp2, hh]
    rw [if_pos hle]
  have hd : detect cfg entries cur z fp = hashResult (getThreshold cfg z fp)
      (diffCount (fingerprint cfg (prep cur)) (fingerprint cfg (prep e.image))) e.zHeight := by
    unfold detect
    rw [hr]
  refine ⟨by rw [hd]; rfl, by rw [hd]; rfl, ?_, ?_⟩
  · rw [hr]
    simp
  · rw [hr]
    simp

/-- A small-hash configuration used to exercise the fast path on tiny
concrete images. -/
def hashCfg : DetectionConfig := { defaultConfig with hashSize := 2 }

/-- Witness for C3: a byte-identical one-pixel pair at Z = 50 with
distance 0 within the default match threshold 5. -/
theorem detect_hash_fast_path_w :
    (detect hashCfg [⟨50, [[1/2]]⟩] [[1/2]] 50 none).isClean = true ∧
    (detect hashCfg [⟨50, [[1/2]]⟩] [[1/2]] 50 none).detectionMethod =
      DetectionMethod.hashShortCircuit ∧
    Stage.ssimCompare ∉ (runDetect hashCfg [⟨50, [[1/2]]⟩] [[1/2]] 50 none).2 ∧
    Stage.regionAnalyze ∉ (runDetect hashCfg [⟨50, [[1/2]]⟩] [[1/2]] 50 none).2 :=
  detect_hash_fast_path hashCfg [⟨50, [[1/2]]⟩] [[1/2]] 50 none ⟨50, [[1/2]]⟩
    (by decide) (by decide) (by decide) (by decide)

/-- C7: when a reference is resolved, the hash fast path does not
fire, and the SSIM score falls below the adaptive threshold, the
result is dirty via `ssimDirty`, and the regions are exactly whatever
region analysis enumerates - the decision does not depend on them. -/
theorem detect_ssim_dirty (cfg : DetectionConfig) (entries : List CalEntry)
    (cur : List (List ℚ)) (z : ℚ) (fp : Option ℚ) (e : CalEntry)
    (h1 : validGrid cur = true)
    (h2 : resolve entries z cfg.tolerance = some e)
    (h3 : validGrid e.image = true)
    (hno : ¬ diffCount (fingerprint cfg (prep cur)) (fingerprint cfg (prep e.image)) ≤
      cfg.matchThreshold)
    (hs : (compareSSIM cfg.windowSize (prep cur) (prep e.image)).1 < getThreshold cfg z fp) :
    (detect cfg entries cur z fp).isClean = false ∧
    (detect cfg entries cur z fp).detectionMethod = DetectionMethod.ssimDirty ∧
    (detect cfg entries cur z fp).regionsDetected =
      analyze cfg.minAreaPixels cfg.maxAspect cfg.diffThreshold
        (compareSSIM cfg.windowSize (prep cur) (prep e.image)).2 := by
  have hp1 : preprocess cur = Except.ok (prep cur) := by simp [preprocess, h1]
  have hp2 : preprocess e.image = Except.ok (prep e.image) := by simp [preprocess, h3]
  have hh : hammingDistance (fingerprint cfg (prep cur)) (fingerprint cfg (prep e.image)) =
      Except.ok (diffCount (fingerprint cfg (prep cur)) (fingerprint cfg (prep e.image))) := by
    unfold hammingDistance
    rw [if_pos (fingerprint_length_eq cfg _ _)]
  have hr : runDetect cfg entries cur z fp =
      (Except.ok (ssimDirtyResult (compareSSIM cfg.windowSize (prep cur) (prep e.image)).1
        (getThreshold cfg z fp)
        (diffCount (fingerprint cfg (prep cur)) (fingerprint cfg (prep e.image)))
        (analyze cfg.minAreaPixels cfg.maxAspect cfg.diffThreshold
          (compareSSIM cfg.windowSize (prep cur) (prep e.image)).2)
        e.zHeight),
       [Stage.preproc, Stage.resolveRef, Stage.hashCheck, Stage.ssimCompare,
        Stage.regionAnalyze]) := by
    unfold runDetect
    simp only [hp1, h2, hp2, hh]
    rw [if_neg hno, if_neg (not_le.mpr hs)]
  have hd : detect cfg entries cur z fp = ssimDirtyResult
      (compareSSIM cfg.windowSize (prep cur) (prep e.image)).1 (getThreshold cfg z fp)
      (diffCount (fingerprint cfg (prep cur)) (fingerprint cfg (prep e.image)))
      (analyze cfg.minAreaPixels cfg.maxAspect cfg.diffThreshold
        (compareSSIM cfg.windowSize (prep cur) (prep e.image)).2)
      e.zHeight := by
    unfold detect
    rw [hr]
  exact ⟨by rw [hd]; rfl, by rw [hd]; rfl, by rw [hd]; rfl⟩

/-- A configuration with tiny hash, single-pixel SSIM windows and a
zero match threshold, used to drive a concrete call down the dirty
path. -/
def dirtyCfg : DetectionConfig :=
  { defaultConfig with hashSize := 2, windowSize := 1, matchThreshold := 0 }

/-- Witness for C7: a two-pixel pair that misses the hash fast path,
scores SSIM about 0.5 against threshold 0.9, and whose single changed
window is filtered out by the 100-pixel minimum area - the result
stays dirty with zero regions. -/
theorem detect_ssim_dirty_w :
    (detect dirtyCfg [⟨50, [[0, 0]]⟩] [[0, 1]] 50 none).isClean = false ∧
    (detect dirtyCfg [⟨50, [[0, 0]]⟩] [[0, 1]] 50 none).detectionMethod =
      DetectionMethod.ssimDirty ∧
    (detect dirtyCfg [⟨50, [[0, 0]]⟩] [[0, 1]] 50 none).regionsDetected = [] := by
  have h := detect_ssim_dirty dirtyCfg [⟨50, [[0, 0]]⟩] [[0, 1]] 50 none ⟨50, [[0, 0]]⟩
    (by decide) (by decide) (by decide) (by decide) (by decide)
  exact ⟨h.1, h.2.1, by decide⟩

/-- C9: an image compared against itself yields Hamming distance 0 and
SSIM exactly 1 under any configuration and window size, and `detect`
on a byte-identical current/reference pair short-circuits on the hash
with distance 0 and a clean verdict, at any zHeight zone. -/
theorem self_comparison_clean :
    (∀ (cfg : DetectionConfig) (img : List (List ℚ)),
        hammingDistance (fingerprint cfg img) (fingerprint cfg img) = Except.ok 0) ∧
    (∀ (w : ℕ) (img : List (List ℚ)), (compareSSIM w img img).1 = 1) ∧
    (∀ (cfg : DetectionConfig) (entries : List CalEntry) (cur : List (List ℚ))
        (z : ℚ) (fp : Option ℚ) (e : CalEntry),
        validGrid cur = true → resolve entries z cfg.tolerance = some e → e.image = cur →
          (detect cfg entries cur z fp).isClean = true ∧
          (detect cfg entries cur z fp).detectionMethod = DetectionMethod.hashShortCircuit ∧
          (detect cfg entries cur z fp).hashDistance = 0) := by
  refine ⟨hamming_self, compareSSIM_self, ?_⟩
  intro cfg entries cur z fp e h1 h2 h3
  have hp1 : preprocess cur = Except.ok (prep cur) := by simp [preprocess, h1]
  have hp2 : preprocess e.image = Except.ok (prep cur) := by rw [h3]; exact hp1
  have hr : runDetect cfg entries cur z fp =
      (Except.ok (hashResult (getThreshold cfg z fp) 0 e.zHeight),
       [Stage.preproc, Stage.resolveRef, Stage.hashCheck]) := by
    unfold runDetect
    simp only [hp1, h2, hp2, hamming_self]
    rw [if_pos (Nat.zero_le cfg.matchThreshold)]
  have hd : detect cfg entries cur z fp =
      hashResult (getThreshold cfg z fp) 0 e.zHeight := by
    unfold detect
    rw [hr]
  exact ⟨by rw [hd]; rfl, by rw [hd]; rfl, by rw [hd]; rfl⟩

/-- Witness for C9: a one-pixel image identical to its stored Z = 50
reference. -/
theorem self_comparison_clean_w :
    (detect defaultConfig [⟨50, [[1/2]]⟩] [[1/2]] 50 none).isClean = true ∧
    (detect defaultConfig [⟨50, [[1/2]]⟩] [[1/2]] 50 none).detectionMethod =
      DetectionMethod.hashShortCircuit ∧
    (detect defaultConfig [⟨50, [[1/2]]⟩] [[1/2]] 50 none).hashDistance = 0 :=
  self_comparison_clean.2.2 defaultConfig [⟨50, [[1/2]]⟩] [[1/2]] 50 none ⟨50, [[1/2]]⟩
    (by decide) (by decide) (by rfl)

end RatEval3
